import Mathlib

/-
  Shallow embedding of the remote-configuration client
  (pkg/config/remote/client.go) and of the agent-profile selection logic
  (package agentprofile) of the datadog-operator repository.

  External packages (pkg/pbgo protobuf types, pkg/remoteconfig/state, the
  crypto/rand byte source, the Kubernetes label-selector machinery) are not
  part of the analysed sources; they are modelled as plain data carriers or
  abstracted as parameters, as documented on each definition.
-/

/-- Model of the Go error interface: an error value carries a message
returned by its Error method. -/
structure GoError where
  message : String
deriving DecidableEq, Repr

/-- Modelled from the spec: pbgo.TargetFileHash protobuf message, as
populated by Client.newUpdateRequest (fields Algorithm and Hash). -/
structure TargetFileHash where
  algorithm : String
  hash : String
deriving DecidableEq, Repr

/-- Modelled from the spec: pbgo.TargetFileMeta protobuf message, as
populated by Client.newUpdateRequest (fields Path, Length, Hashes). -/
structure TargetFileMeta where
  path : String
  length : Nat
  hashes : List TargetFileHash
deriving DecidableEq, Repr

/-- Modelled from the spec: pbgo.ConfigState protobuf message, as populated
by Client.newUpdateRequest (fields Id, Version, Product). -/
structure ConfigState where
  id : String
  version : Nat
  product : String
deriving DecidableEq, Repr

/-- Modelled from the spec: pbgo.ClientState protobuf message, as populated
by Client.newUpdateRequest. -/
structure ClientState where
  rootVersion : Nat
  targetsVersion : Nat
  configStates : List ConfigState
  hasError : Bool
  error : String
  backendClientState : List Nat
deriving DecidableEq, Repr

/-- Modelled from the spec: pbgo.ClientAgent protobuf message, as populated
by Client.newUpdateRequest. -/
structure ClientAgent where
  name : String
  version : String
  clusterName : String
  clusterId : String
  cwsWorkloads : List String
deriving DecidableEq, Repr

/-- Modelled from the spec: pbgo.Client protobuf message (the Client field
of a ClientGetConfigsRequest), as populated by Client.newUpdateRequest. -/
structure PbClient where
  state : ClientState
  id : String
  products : List String
  isAgent : Bool
  isTracer : Bool
  clientAgent : ClientAgent
deriving DecidableEq, Repr

/-- Modelled from the spec: pbgo.ClientGetConfigsRequest protobuf message,
as populated by Client.newUpdateRequest. -/
structure ClientGetConfigsRequest where
  client : PbClient
  cachedTargetFiles : List TargetFileMeta
deriving DecidableEq, Repr

/-- Modelled from the spec: a cached target file of the state repository
(package pkg/remoteconfig/state, absent from the analysed sources), with
the fields read by Client.newUpdateRequest: Path, Length, and Hashes, the
latter a map from algorithm name to raw hash bytes, modelled as an
association list because Go map iteration order is not fixed. -/
structure CachedFile where
  path : String
  length : Nat
  hashes : List (String × List Nat)
deriving DecidableEq, Repr

/-- Modelled from the spec: a config entry of the state repository state,
with the fields read by Client.newUpdateRequest: ID, Version, Product. -/
structure ConfigMeta where
  id : String
  version : Nat
  product : String
deriving DecidableEq, Repr

/-- Modelled from the spec: the value returned by state.CurrentState of the
state repository (package pkg/remoteconfig/state, absent from the analysed
sources), with the fields read by Client.newUpdateRequest. -/
structure RepositoryState where
  rootsVersion : Nat
  targetsVersion : Nat
  configs : List ConfigMeta
  cachedFiles : List CachedFile
  opaqueBackendState : List Nat
deriving DecidableEq, Repr

/-- Modelled from the spec: a pbgo.TargetFile entry of a
ClientGetConfigsResponse, with the fields read by Client.applyUpdate
(Path and Raw). Raw bytes are modelled as a list of naturals. -/
structure TargetFile where
  path : String
  raw : List Nat
deriving DecidableEq, Repr

/-- Modelled from the spec: pbgo.ClientGetConfigsResponse, with the fields
read by Client.update and Client.applyUpdate. TargetFiles is a Go slice
that the code compares against nil, so it is modelled as an Option. -/
structure ClientGetConfigsResponse where
  roots : List (List Nat)
  targets : List Nat
  targetFiles : Option (List TargetFile)
  clientConfigs : List String

/-- Modelled from the spec: the state.Update structure passed to the state
repository Update method (package pkg/remoteconfig/state, absent from the
analysed sources). The TargetFiles field is a Go map from path to raw
bytes, modelled as a lookup function. -/
structure StateUpdate where
  tufRoots : List (List Nat)
  tufTargets : List Nat
  targetFiles : String → Option (List Nat)
  clientConfigs : List String

/-- Modelled from the spec: the state.ProductDebug constant of the state
package, absent from the analysed sources. Its concrete value is irrelevant
to every property proved below; only membership of the changed-products
list matters. -/
def ProductDebug : String := "debug"

/-- Modelled from the spec: the map of debug configs returned by
state.DebugConfigs of the state repository. The payload is opaque to the
client, which passes it through to listeners unchanged, so it is modelled
as an association list of strings. -/
def DebugConfigs := List (String × String)
deriving DecidableEq

/-- Model of the Client struct of pkg/config/remote/client.go, restricted
to the fields the analysed functions read or write. Debug listeners are
functions in Go; they are modelled by opaque listener identifiers so that
notifications can be observed as data. -/
structure Client where
  ID : String
  agentName : String
  agentVersion : String
  products : List String
  clusterName : String
  clusterID : String
  cwsWorkloads : List String
  pollInterval : Nat
  lastUpdateError : Option GoError
  debugListeners : List Nat

/-- Environment of a Client.update call: the behaviour of the external
collaborators during one poll cycle. currentState models
state.CurrentState, getConfigs models updater.ClientGetConfigs,
stateUpdate models state.Update of the state repository, and debugConfigs
models the value state.DebugConfigs returns while notifying. -/
structure UpdateEnv where
  currentState : Except GoError RepositoryState
  getConfigs : ClientGetConfigsRequest → Except GoError ClientGetConfigsResponse
  stateUpdate : StateUpdate → Except GoError (List String)
  debugConfigs : DebugConfigs

/-- Character table of lowercase hexadecimal digits used by the Go standard
library function hex.EncodeToString. -/
def hexDigitChars : List Char := String.toList "0123456789abcdef"

/-- Hex encoding of one byte: the high nibble digit followed by the low
nibble digit, lowercase, as produced by hex.EncodeToString. -/
def hexByte (b : Nat) : List Char :=
  [hexDigitChars.getD (b % 256 / 16) ' ', hexDigitChars.getD (b % 16) ' ']

/-- Model of the Go standard library function hex.EncodeToString applied to
a byte slice: each byte becomes two lowercase hex digits. -/
def hexEncodeToString (bs : List Nat) : String :=
  String.mk (bs.map hexByte).flatten

/-- Embedding of Client.newUpdateRequest (client.go lines 380 to 443). The
call c.state.CurrentState is external, so its result is the parameter cur.
The Go loops that append to pbCachedFiles, pbHashes and pbConfigState are
rendered as left folds that append one element per iteration, exactly in
source order. The Version field of the ClientAgent message is the literal
string 9.9.9; the commented-out alternative c.agentVersion is not read. -/
def Client.newUpdateRequest (c : Client) (cur : Except GoError RepositoryState) :
    Except GoError ClientGetConfigsRequest :=
  match cur with
  | Except.error err => Except.error err
  | Except.ok st =>
    let pbCachedFiles : List TargetFileMeta :=
      st.cachedFiles.foldl (fun acc f =>
        let pbHashes : List TargetFileHash :=
          f.hashes.foldl (fun hacc ah =>
            hacc ++ [{ algorithm := ah.1, hash := hexEncodeToString ah.2 }]) []
        acc ++ [{ path := f.path, length := f.length, hashes := pbHashes }]) []
    let hasError := c.lastUpdateError.isSome
    let errMsg : String :=
      match c.lastUpdateError with
      | some err => err.message
      | none => ""
    let pbConfigState : List ConfigState :=
      st.configs.foldl (fun acc f =>
        acc ++ [{ id := f.id, version := f.version, product := f.product }]) []
    Except.ok
      { client :=
          { state :=
              { rootVersion := st.rootsVersion
                targetsVersion := st.targetsVersion
                configStates := pbConfigState
                hasError := hasError
                error := errMsg
                backendClientState := st.opaqueBackendState }
            id := c.ID
            products := c.products
            isAgent := true
            isTracer := false
            clientAgent :=
              { name := c.agentName
                version := "9.9.9"
                clusterName := c.clusterName
                clusterId := c.clusterID
                cwsWorkloads := c.cwsWorkloads } }
        cachedTargetFiles := pbCachedFiles }

/-- Go map built by the loop at the start of Client.applyUpdate: for each
target file, fileMap at f.Path is set to f.Raw, later entries overwriting
earlier ones as Go map assignment does. A nil TargetFiles slice yields an
empty map, since ranging over nil performs no iterations. -/
def buildFileMap (files : Option (List TargetFile)) : String → Option (List Nat) :=
  (files.getD []).foldl (fun m f => fun p => if p = f.path then some f.raw else m p)
    (fun _ => none)

/-- Embedding of Client.applyUpdate (client.go lines 362 to 376): build the
file map from the response target files, assemble the state.Update value,
and hand it to the state repository Update method, which is external and
modelled by env.stateUpdate. -/
def Client.applyUpdate (env : UpdateEnv) (pbUpdate : ClientGetConfigsResponse) :
    Except GoError (List String) :=
  env.stateUpdate
    { tufRoots := pbUpdate.roots
      tufTargets := pbUpdate.targets
      targetFiles := buildFileMap pbUpdate.targetFiles
      clientConfigs := pbUpdate.clientConfigs }

/-- Embedding of containsProduct (client.go lines 312 to 320): linear scan
returning true on the first element equal to product. -/
def containsProduct (products : List String) (product : String) : Bool :=
  match products with
  | [] => false
  | p :: rest => if product = p then true else containsProduct rest product

/-- Embedding of Client.update (client.go lines 273 to 310). The returned
pair carries the Go error result (none for nil) and the observable
notifications: one pair per invoked debug listener, carrying the
DebugConfigs value passed to it. Early returns produce no notification. -/
def Client.update (c : Client) (env : UpdateEnv) :
    Option GoError × List (Nat × DebugConfigs) :=
  match Client.newUpdateRequest c env.currentState with
  | Except.error err => (some err, [])
  | Except.ok req =>
    match env.getConfigs req with
    | Except.error err => (some err, [])
    | Except.ok response =>
      match response.targetFiles with
      | none => (none, [])
      | some _ =>
        match Client.applyUpdate env response with
        | Except.error err => (some err, [])
        | Except.ok changedProducts =>
          if changedProducts.length = 0 then (none, [])
          else if containsProduct changedProducts ProductDebug then
            (none, c.debugListeners.map (fun l => (l, env.debugConfigs)))
          else (none, [])

/-- Duration in nanoseconds of the timer armed by each iteration of
Client.pollLoop: the literal expression time.Second times 5 at client.go
line 258, where time.Second is one billion nanoseconds. -/
def pollWaitNanos : Nat := 5 * 1000000000

/-- Embedding of one iteration of Client.pollLoop (client.go lines 251 to
268). If the client context is done the loop returns (none). Otherwise the
loop waits pollWaitNanos nanoseconds, runs Client.update, and stores its
error result in lastUpdateError; the second component records the wait that
preceded the update. The backoff computation is commented out in the
source, so no state influences the wait. -/
def pollLoopIteration (c : Client) (env : UpdateEnv) (ctxDone : Bool) :
    Option (Client × Nat) :=
  if ctxDone then none
  else
    let r := Client.update c env
    some ({ c with lastUpdateError := r.1 }, pollWaitNanos)

/-- Lifecycle state of a client: the done flag of the startupSync sync.Once
field, the number of pollLoop goroutines ever launched by startFn, and
whether the context created by newClient has been cancelled by Close. -/
structure ClientLifecycle where
  onceDone : Bool
  pollLoops : Nat
  ctxCancelled : Bool
deriving DecidableEq, Repr

/-- Lifecycle state of a freshly constructed client: sync.Once unused, no
poll loop running, context live. -/
def ClientLifecycle.initial : ClientLifecycle :=
  { onceDone := false, pollLoops := 0, ctxCancelled := false }

/-- Embedding of Client.Start (client.go lines 232 to 234):
startupSync.Do(startFn) runs startFn exactly when the sync.Once has not run
before, and startFn (lines 243 to 245) launches one pollLoop goroutine. -/
def Client.start (s : ClientLifecycle) : ClientLifecycle :=
  if s.onceDone then s
  else { s with onceDone := true, pollLoops := s.pollLoops + 1 }

/-- Embedding of Client.Close (client.go lines 239 to 241): it cancels the
client context and touches nothing else. -/
def Client.closeClient (s : ClientLifecycle) : ClientLifecycle :=
  { s with ctxCancelled := true }

/-- A lifecycle operation a caller may perform on the client. -/
inductive LifecycleOp
  | start
  | close
deriving DecidableEq, Repr

/-- Apply a sequence of Start and Close calls to a lifecycle state. -/
def applyLifecycleOps (s : ClientLifecycle) : List LifecycleOp → ClientLifecycle
  | [] => s
  | LifecycleOp.start :: ops => applyLifecycleOps (Client.start s) ops
  | LifecycleOp.close :: ops => applyLifecycleOps (Client.closeClient s) ops

/-- Atomic action on the single client mutex m and on the debugListeners
slice it guards: acquiring m, releasing m, reading or appending to the
listener list, and invoking a listener function. -/
inductive MutexAction
  | lock
  | unlock
  | listAccess
  | listenerCall
deriving DecidableEq, Repr

/-- Action trace of Client.RegisterDebug (client.go lines 323 to 328):
Lock, append to debugListeners, invoke the new listener with
state.DebugConfigs, then the deferred Unlock. -/
def registerDebugTrace : List MutexAction :=
  [MutexAction.lock, MutexAction.listAccess, MutexAction.listenerCall,
    MutexAction.unlock]

/-- Action trace of the notification section of Client.update (client.go
lines 299 to 307): Lock, then, when the changed products contain the debug
product, a read of the listener list length, the range over the listener
list, and one invocation per registered listener; finally the deferred
Unlock. -/
def updateNotifyTrace (listeners : List Nat) (debugChanged : Bool) :
    List MutexAction :=
  [MutexAction.lock] ++
    (if debugChanged then
      MutexAction.listAccess :: MutexAction.listAccess ::
        listeners.map (fun _ => MutexAction.listenerCall)
    else []) ++
    [MutexAction.unlock]

/-- Check that every listener-list access and every listener invocation in
a trace happens while the mutex hold depth is positive. -/
def accessesGuarded : List MutexAction → Nat → Bool
  | [], _ => true
  | MutexAction.lock :: rest, d => accessesGuarded rest (d + 1)
  | MutexAction.unlock :: rest, d => accessesGuarded rest (d - 1)
  | MutexAction.listAccess :: rest, d => decide (0 < d) && accessesGuarded rest d
  | MutexAction.listenerCall :: rest, d => decide (0 < d) && accessesGuarded rest d

/-- Size of a generated client ID (client.go line 446). -/
def idSize : Nat := 21

/-- Alphabet of client ID characters (client.go line 447). -/
def idAlphabet : List Char :=
  String.toList "_-0123456789abcdefghijklmnopqrstuvwxyzABCDEFGHIJKLMNOPQRSTUVWXYZ"

/-- The alphabet has 64 characters, so masking with 63 stays in bounds. -/
theorem idAlphabet_length : idAlphabet.length = 64 := rfl

/-- Embedding of generateID (client.go lines 451 to 462). The idSize bytes
filled by crypto/rand are the input stream randBytes, reduced modulo 256
because Go bytes are 8-bit; each byte is masked with 63 and indexes the
64-character alphabet, the mask keeping the index in bounds. -/
def generateID (randBytes : Nat → Nat) : String :=
  String.mk ((List.range idSize).map (fun i =>
    idAlphabet.get ⟨randBytes i % 256 &&& 63, by
      rw [idAlphabet_length]
      have h : randBytes i % 256 &&& 63 ≤ 63 := Nat.and_le_right
      omega⟩))

/-- Modelled from the spec: a Kubernetes NodeSelectorRequirement as used by
the agentprofile package, with its operator modelled by the string constant
the Kubernetes API assigns to it (In, NotIn, Exists, DoesNotExist, Gt,
Lt). -/
structure NodeSelectorRequirement where
  key : String
  operator : String
  values : List String
deriving DecidableEq, Repr

/-- Model of the ProfileAffinity field of a DatadogAgentProfile spec: a
list of node selector requirements. -/
structure ProfileAffinity where
  profileNodeAffinity : List NodeSelectorRequirement
deriving DecidableEq, Repr

/-- Model of the DatadogAgentProfile spec, restricted to the field the
profile-selection logic reads. The Go pointer is an Option. -/
structure ProfileSpec where
  profileAffinity : Option ProfileAffinity
deriving DecidableEq, Repr

/-- Model of a DatadogAgentProfile object: its name, namespace and creation
timestamp from ObjectMeta, and its spec. The metav1 creation timestamp is
modelled as a natural number with the metav1 zero time at 0, compared with
the usual order as metav1.Time.Before and Equal do. -/
structure Profile where
  name : String
  nspace : String
  creationTimestamp : Nat
  spec : ProfileSpec
deriving DecidableEq, Repr

/-- Model of a Kubernetes node as read by the profile-selection logic: only
its name is consulted directly, label matching being abstracted behind the
matchesFn parameter. -/
structure Node where
  nodeName : String
  labels : List (String × String)
deriving DecidableEq, Repr

/-- Name of the default profile (agentprofile source line 25). -/
def defaultProfileName : String := "default"

/-- Embedding of oppositeOperator of the agentprofile package: swap each
node selector operator with its negation, unknown operators mapping to the
empty string. -/
def oppositeOperator (op : String) : String :=
  if op = "In" then "NotIn"
  else if op = "NotIn" then "In"
  else if op = "Exists" then "DoesNotExist"
  else if op = "DoesNotExist" then "Exists"
  else if op = "Gt" then "Lt"
  else if op = "Lt" then "Gt"
  else ""

/-- Embedding of defaultProfile of the agentprofile package: collect the
negation of every node selector requirement of the given profiles, in
order, and return a profile named default carrying them (no affinity when
none were collected). -/
def defaultProfile (profiles : List Profile) : Profile :=
  let nodeSelectorRequirements : List NodeSelectorRequirement :=
    profiles.foldl (fun acc profile =>
      match profile.spec.profileAffinity with
      | none => acc
      | some aff =>
        acc ++ aff.profileNodeAffinity.map (fun r =>
          { key := r.key
            operator := oppositeOperator r.operator
            values := r.values })) []
  { name := defaultProfileName
    nspace := ""
    creationTimestamp := 0
    spec :=
      { profileAffinity :=
          if nodeSelectorRequirements.length > 0 then
            some { profileNodeAffinity := nodeSelectorRequirements }
          else none } }

/-- The comparison closure passed to sort.Slice by sortProfiles: a profile
precedes another when its creation timestamp is strictly earlier, or when
the timestamps are equal and its name is alphabetically smaller. -/
def profileLess (p q : Profile) : Bool :=
  if p.creationTimestamp ≠ q.creationTimestamp then
    decide (p.creationTimestamp < q.creationTimestamp)
  else decide (p.name < q.name)

/-- Embedding of sortProfiles of the agentprofile package: sort the copied
slice with the profileLess comparison. Go sort.Slice guarantees only a
sorted permutation; it is modelled by mergeSort with the complementary
non-strict comparison. -/
def sortProfiles (profiles : List Profile) : List Profile :=
  profiles.mergeSort (fun p q => !profileLess q p)

/-- Inner node loop of ProfilesToApply for one candidate profile: walk the
nodes in order, consult the abstracted profileMatchesNode result, fail on
the first error, report a conflict (none) as soon as a matching node is
already covered by an applied profile, and otherwise collect the names of
the matching nodes. -/
def scanNodes (matchesFn : Profile → Node → Except GoError Bool)
    (applied : List String) (profile : Profile) :
    List Node → Except GoError (Option (List String))
  | [] => Except.ok (some [])
  | node :: rest =>
    match matchesFn profile node with
    | Except.error err => Except.error err
    | Except.ok false => scanNodes matchesFn applied profile rest
    | Except.ok true =>
      if node.nodeName ∈ applied then Except.ok none
      else
        match scanNodes matchesFn applied profile rest with
        | Except.error err => Except.error err
        | Except.ok none => Except.ok none
        | Except.ok (some ms) => Except.ok (some (node.nodeName :: ms))

/-- Outer profile loop of ProfilesToApply: walk the sorted profiles,
skipping a profile whose node scan reports a conflict, and otherwise
marking its matching nodes as applied and keeping the profile. The applied
argument models the nodesWithProfilesApplied map, holding the names mapped
to true. -/
def profilesLoopGo (matchesFn : Profile → Node → Except GoError Bool)
    (nodes : List Node) :
    List String → List Profile → Except GoError (List Profile)
  | _, [] => Except.ok []
  | applied, p :: rest =>
    match scanNodes matchesFn applied p nodes with
    | Except.error err => Except.error err
    | Except.ok none => profilesLoopGo matchesFn nodes applied rest
    | Except.ok (some ms) =>
      match profilesLoopGo matchesFn nodes (applied ++ ms) rest with
      | Except.error err => Except.error err
      | Except.ok res => Except.ok (p :: res)

/-- Embedding of ProfilesToApply of the agentprofile package (source lines
38 to 81): sort the profiles, run the conflict-avoiding greedy loop, and
append the default profile built from the kept profiles. The fallible
profileMatchesNode helper rests on the Kubernetes label-selector library,
which is external, so it is abstracted as the matchesFn parameter. -/
def ProfilesToApply (matchesFn : Profile → Node → Except GoError Bool)
    (profiles : List Profile) (nodes : List Node) :
    Except GoError (List Profile) :=
  match profilesLoopGo matchesFn nodes [] (sortProfiles profiles) with
  | Except.error err => Except.error err
  | Except.ok res => Except.ok (res ++ [defaultProfile res])

/-- Helper: a fold that appends one listener call per element keeps every
call guarded whenever the mutex is already held. -/
theorem accessesGuarded_listenerCalls (xs : List Nat) :
    ∀ d : Nat, 0 < d →
      accessesGuarded (xs.map (fun _ => MutexAction.listenerCall) ++
        [MutexAction.unlock]) d = true := by
  induction xs with
  | nil =>
    intro d _
    simp [accessesGuarded]
  | cons x xs ih =>
    intro d hd
    simp only [List.map_cons, List.cons_append, accessesGuarded, List.append_eq]
    rw [ih d hd]
    simp [hd]

/-- Helper: the lifecycle invariant preserved by every Start and Close
call: a client whose sync.Once has not fired has no poll loop, and no
client ever has more than one. -/
theorem lifecycle_invariant :
    ∀ (ops : List LifecycleOp) (s : ClientLifecycle),
      (s.onceDone = false → s.pollLoops = 0) → s.pollLoops ≤ 1 →
      ((applyLifecycleOps s ops).onceDone = false →
        (applyLifecycleOps s ops).pollLoops = 0) ∧
      (applyLifecycleOps s ops).pollLoops ≤ 1 := by
  intro ops
  induction ops with
  | nil => intro s h1 h2; exact ⟨h1, h2⟩
  | cons op rest ih =>
    intro s h1 h2
    cases op with
    | start =>
      simp only [applyLifecycleOps]
      by_cases h : s.onceDone = true
      · have : Client.start s = s := by simp [Client.start, h]
        rw [this]
        exact ih s h1 h2
      · have hfalse : s.onceDone = false := by
          cases hc : s.onceDone
          · rfl
          · exact absurd hc h
        have hz : s.pollLoops = 0 := h1 hfalse
        have : Client.start s =
            { s with onceDone := true, pollLoops := s.pollLoops + 1 } := by
          simp [Client.start, hfalse]
        rw [this]
        apply ih
        · intro hcontra
          simp at hcontra
        · simp [hz]
    | close =>
      simp only [applyLifecycleOps]
      exact ih (Client.closeClient s) h1 h2

/-- Helper: applying any operation sequence to a state with a cancelled
context leaves the context cancelled, since Start never touches it and
Close only sets it. -/
theorem lifecycle_cancelled_stays :
    ∀ (ops : List LifecycleOp) (s : ClientLifecycle),
      s.ctxCancelled = true → (applyLifecycleOps s ops).ctxCancelled = true := by
  intro ops
  induction ops with
  | nil => intro s h; exact h
  | cons op rest ih =>
    intro s h
    cases op with
    | start =>
      simp only [applyLifecycleOps]
      apply ih
      by_cases hd : s.onceDone = true <;> simp [Client.start, hd, h]
    | close =>
      simp only [applyLifecycleOps]
      apply ih
      simp [Client.closeClient]

/-- C4: the poll loop of the client waits a fixed five seconds (five
billion nanoseconds, the literal time.Second times 5) before every update
attempt until the context is cancelled; the wait is unchanged under any
pollInterval value and under any previous update error, since the backoff
logic is commented out. -/
theorem pollLoop_fixed_five_second_interval :
    ∀ (c : Client) (env : UpdateEnv) (ctxDone : Bool),
      (ctxDone = true → pollLoopIteration c env ctxDone = none) ∧
      (ctxDone = false →
        (pollLoopIteration c env ctxDone).map Prod.snd = some pollWaitNanos) ∧
      pollWaitNanos = 5 * 1000000000 ∧
      (∀ (interval : Nat) (err : Option GoError),
        (pollLoopIteration
            { c with pollInterval := interval, lastUpdateError := err }
            env ctxDone).map Prod.snd =
          (pollLoopIteration c env ctxDone).map Prod.snd) := by
  intro c env ctxDone
  refine ⟨?_, ?_, rfl, ?_⟩
  · intro h; simp [pollLoopIteration, h]
  · intro h; simp [pollLoopIteration, h]
  · intro interval err
    cases ctxDone <;> simp [pollLoopIteration]

/-- C5: across any sequence of Start and Close calls on a fresh client, at
most one poll loop is ever launched, a second Start is a no-op, a closed
client stays closed forever, and a poll loop whose context is done returns
at once, so a closed client is never restarted. -/
theorem start_spawns_at_most_one_loop :
    (∀ ops : List LifecycleOp,
      (applyLifecycleOps ClientLifecycle.initial ops).pollLoops ≤ 1) ∧
    (∀ s : ClientLifecycle, Client.start (Client.start s) = Client.start s) ∧
    (∀ (s : ClientLifecycle) (ops : List LifecycleOp),
      (applyLifecycleOps (Client.closeClient s) ops).ctxCancelled = true) ∧
    (∀ (c : Client) (env : UpdateEnv), pollLoopIteration c env true = none) := by
  refine ⟨?_, ?_, ?_, ?_⟩
  · intro ops
    exact (lifecycle_invariant ops ClientLifecycle.initial
      (fun _ => rfl) (by simp [ClientLifecycle.initial])).2
  · intro s
    by_cases h : s.onceDone = true
    · simp [Client.start, h]
    · have hfalse : s.onceDone = false := by
        cases hc : s.onceDone
        · rfl
        · exact absurd hc h
      simp [Client.start, hfalse]
  · intro s ops
    exact lifecycle_cancelled_stays ops (Client.closeClient s) rfl
  · intro c env
    simp [pollLoopIteration]

/-- C6: in the traces of RegisterDebug and of the notification section of
update, every access to the debugListeners list and every listener
invocation happens while the single client mutex is held, so a concurrent
registration and an update notification are serialized by that mutex. -/
theorem listener_list_mutex_guarded :
    accessesGuarded registerDebugTrace 0 = true ∧
    (∀ (listeners : List Nat) (debugChanged : Bool),
      accessesGuarded (updateNotifyTrace listeners debugChanged) 0 = true) := by
  refine ⟨rfl, ?_⟩
  intro listeners debugChanged
  cases debugChanged with
  | false => simp [updateNotifyTrace, accessesGuarded]
  | true =>
    simp only [updateNotifyTrace, if_pos, List.cons_append, List.nil_append,
      accessesGuarded, List.append_eq]
    rw [accessesGuarded_listenerCalls listeners 1 (by omega)]
    simp

/-- Concrete update environment for witnesses: the state repository fails
immediately, so the cycle stops at the first step. -/
def envBoom : UpdateEnv :=
  { currentState := Except.error { message := "boom" }
    getConfigs := fun _ => Except.error { message := "unreachable" }
    stateUpdate := fun _ => Except.ok []
    debugConfigs := ([] : List (String × String)) }

/-- Concrete client fields as built by newClient for witnesses. -/
def clientA : Client :=
  { ID := "client-a"
    agentName := "datadog-operator"
    agentVersion := "1.2.3"
    products := []
    clusterName := ""
    clusterID := ""
    cwsWorkloads := []
    pollInterval := 1000000000
    lastUpdateError := none
    debugListeners := [] }

/-- Witness for C4 at a concrete client and environment: a done context
stops the loop, and otherwise the armed timer is exactly pollWaitNanos. -/
theorem pollLoop_fixed_five_second_interval_witness :
    pollLoopIteration clientA envBoom true = none ∧
    (pollLoopIteration clientA envBoom false).map Prod.snd = some pollWaitNanos :=
  ⟨(pollLoop_fixed_five_second_interval clientA envBoom true).1 rfl,
    (pollLoop_fixed_five_second_interval clientA envBoom false).2.1 rfl⟩

/-- The Client fields assigned by newClient (client.go lines 205 to 225)
from its arguments: cluster name and ID are empty because the cluster
detection block is commented out, the workload list starts empty, no update
error has occurred yet, and the listener list starts empty. Repository
construction and random ID generation are external effects, so the
generated ID is a parameter. -/
def newClientFields (agentName : String) (agentVersion : String)
    (products : List String) (pollInterval : Nat) (id : String) : Client :=
  { ID := id
    agentName := agentName
    agentVersion := agentVersion
    products := products
    clusterName := ""
    clusterID := ""
    cwsWorkloads := []
    pollInterval := pollInterval
    lastUpdateError := none
    debugListeners := [] }

/-- C7: the agentVersion argument of NewClient has no effect on the request
newUpdateRequest builds, and the ClientAgent version field of every built
request is the hard-coded literal 9.9.9. -/
theorem request_agent_version_hardcoded :
    ∀ (name v1 v2 : String) (prods : List String) (interval : Nat)
      (id : String) (cur : Except GoError RepositoryState),
      Client.newUpdateRequest (newClientFields name v1 prods interval id) cur =
        Client.newUpdateRequest (newClientFields name v2 prods interval id) cur ∧
      (∀ (st : RepositoryState) (req : ClientGetConfigsRequest),
        Client.newUpdateRequest (newClientFields name v1 prods interval id)
          (Except.ok st) = Except.ok req →
        req.client.clientAgent.version = "9.9.9") := by
  intro name v1 v2 prods interval id cur
  constructor
  · cases cur <;> rfl
  · intro st req h
    have h2 := Except.ok.inj h
    rw [← h2]

/-- Concrete repository state for the C7 witness. -/
def stA : RepositoryState :=
  { rootsVersion := 3
    targetsVersion := 4
    configs := []
    cachedFiles := []
    opaqueBackendState := [9] }

/-- Concrete request that newUpdateRequest builds from stA. -/
def reqA : ClientGetConfigsRequest :=
  { client :=
      { state :=
          { rootVersion := 3
            targetsVersion := 4
            configStates := []
            hasError := false
            error := ""
            backendClientState := [9] }
        id := "idA"
        products := []
        isAgent := true
        isTracer := false
        clientAgent :=
          { name := "op"
            version := "9.9.9"
            clusterName := ""
            clusterId := ""
            cwsWorkloads := [] } }
    cachedTargetFiles := [] }

/-- Witness for C7 at concrete values: two clients differing only in the
agentVersion argument build the same request, and its version field reads
9.9.9. -/
theorem request_agent_version_hardcoded_witness :
    Client.newUpdateRequest (newClientFields "op" "1.0.0" [] 7 "idA")
        (Except.ok stA) =
      Client.newUpdateRequest (newClientFields "op" "2.0.0" [] 7 "idA")
        (Except.ok stA) ∧
    reqA.client.clientAgent.version = "9.9.9" :=
  ⟨(request_agent_version_hardcoded "op" "1.0.0" "2.0.0" [] 7 "idA"
      (Except.ok stA)).1,
    (request_agent_version_hardcoded "op" "1.0.0" "2.0.0" [] 7 "idA"
      (Except.ok stA)).2 stA reqA rfl⟩

/-- C8: for every random byte stream, generateID returns a string of
exactly idSize characters, each of which belongs to the 64-character ID
alphabet, because masking each byte with 63 keeps the index in bounds. -/
theorem generateID_length_and_alphabet :
    ∀ randBytes : Nat → Nat,
      (generateID randBytes).length = idSize ∧
      ∀ ch ∈ (generateID randBytes).toList, ch ∈ idAlphabet := by
  intro randBytes
  constructor
  · show ((List.range idSize).map _).length = idSize
    rw [List.length_map, List.length_range]
  · intro ch hch
    have hch' : ch ∈ (List.range idSize).map (fun i =>
        idAlphabet.get ⟨randBytes i % 256 &&& 63, by
          rw [idAlphabet_length]
          have h : randBytes i % 256 &&& 63 ≤ 63 := Nat.and_le_right
          omega⟩) := hch
    rcases List.mem_map.mp hch' with ⟨i, _, rfl⟩
    exact List.get_mem _ _ _

/-- Witness for C8: with the all-zero byte stream every index is 0 and the
generated ID is 21 underscores, whose characters the theorem places in the
alphabet. -/
theorem generateID_length_and_alphabet_witness :
    (generateID (fun _ => 0)).length = idSize ∧ '_' ∈ idAlphabet :=
  ⟨(generateID_length_and_alphabet (fun _ => 0)).1,
    (generateID_length_and_alphabet (fun _ => 0)).2 '_' (by decide)⟩

/-- Helper: the Go append loop over config entries equals a map. -/
theorem configs_fold_eq (l : List ConfigMeta) :
    ∀ acc : List ConfigState,
      l.foldl (fun acc f =>
          acc ++ [{ id := f.id, version := f.version, product := f.product }]) acc =
        acc ++ l.map (fun f =>
          { id := f.id, version := f.version, product := f.product }) := by
  induction l with
  | nil => intro acc; simp
  | cons x l ih =>
    intro acc
    simp only [List.foldl_cons, List.map_cons]
    rw [ih]
    simp

/-- Helper: the Go append loop over the hash map entries equals a map. -/
theorem hashes_fold_eq (l : List (String × List Nat)) :
    ∀ acc : List TargetFileHash,
      l.foldl (fun hacc ah =>
          hacc ++ [{ algorithm := ah.1, hash := hexEncodeToString ah.2 }]) acc =
        acc ++ l.map (fun ah =>
          { algorithm := ah.1, hash := hexEncodeToString ah.2 }) := by
  induction l with
  | nil => intro acc; simp
  | cons x l ih =>
    intro acc
    simp only [List.foldl_cons, List.map_cons]
    rw [ih]
    simp

/-- Helper: the Go append loop over cached files equals a map, with the
inner hash loop rewritten to a map as well. -/
theorem cachedFiles_fold_eq (l : List CachedFile) :
    ∀ acc : List TargetFileMeta,
      l.foldl (fun acc f =>
          acc ++ [{ path := f.path
                    length := f.length
                    hashes := f.hashes.foldl (fun hacc ah =>
                      hacc ++ [{ algorithm := ah.1, hash := hexEncodeToString ah.2 }]) [] }]) acc =
        acc ++ l.map (fun f =>
          { path := f.path
            length := f.length
            hashes := f.hashes.map (fun ah =>
              { algorithm := ah.1, hash := hexEncodeToString ah.2 }) }) := by
  induction l with
  | nil => intro acc; simp
  | cons x l ih =>
    intro acc
    simp only [List.foldl_cons, List.map_cons]
    rw [ih, hashes_fold_eq]
    simp

/-- C3: the request built by newUpdateRequest mirrors the current
repository state and the last update error: root and targets versions are
copied, config states carry ID, version and product of each config, cached
target files carry path, length and hex-encoded hashes of each cached
file, and the error flag and message reflect exactly a non-nil previous
update error. -/
theorem newUpdateRequest_mirrors_state :
    ∀ (c : Client) (st : RepositoryState) (req : ClientGetConfigsRequest),
      Client.newUpdateRequest c (Except.ok st) = Except.ok req →
      req.client.state.rootVersion = st.rootsVersion ∧
      req.client.state.targetsVersion = st.targetsVersion ∧
      req.client.state.configStates =
        st.configs.map (fun f =>
          { id := f.id, version := f.version, product := f.product }) ∧
      req.cachedTargetFiles =
        st.cachedFiles.map (fun f =>
          { path := f.path, length := f.length,
            hashes := f.hashes.map (fun ah =>
              { algorithm := ah.1, hash := hexEncodeToString ah.2 }) }) ∧
      (req.client.state.hasError = true ↔ c.lastUpdateError ≠ none) ∧
      (∀ err, c.lastUpdateError = some err →
        req.client.state.error = err.message) ∧
      (c.lastUpdateError = none → req.client.state.error = "") := by
  intro c st req h
  simp only [Client.newUpdateRequest] at h
  have hreq := Except.ok.inj h
  rw [← hreq]
  refine ⟨rfl, rfl, ?_, ?_, ?_, ?_, ?_⟩
  · show st.configs.foldl _ [] = _
    rw [configs_fold_eq]
    simp
  · show st.cachedFiles.foldl _ [] = _
    rw [cachedFiles_fold_eq]
    simp
  · show c.lastUpdateError.isSome = true ↔ c.lastUpdateError ≠ none
    cases c.lastUpdateError <;> simp
  · intro err herr
    show (match c.lastUpdateError with
      | some e => e.message
      | none => "") = err.message
    rw [herr]
  · intro hnone
    show (match c.lastUpdateError with
      | some e => e.message
      | none => "") = ""
    rw [hnone]

/-- Concrete repository state for the C3 witness: one config and one
cached file whose single hash 171 205 hex-encodes to abcd. -/
def stB : RepositoryState :=
  { rootsVersion := 11
    targetsVersion := 12
    configs := [{ id := "cfg1", version := 2, product := "debug" }]
    cachedFiles := [{ path := "p1", length := 5, hashes := [("sha256", [171, 205])] }]
    opaqueBackendState := [1, 2] }

/-- Concrete client with a previous update error for the C3 witness. -/
def clientB : Client :=
  { ID := "client-b"
    agentName := "datadog-operator"
    agentVersion := "1.2.3"
    products := ["debug"]
    clusterName := ""
    clusterID := ""
    cwsWorkloads := []
    pollInterval := 1000000000
    lastUpdateError := some { message := "previous failure" }
    debugListeners := [] }

/-- Concrete request that newUpdateRequest builds from clientB and stB. -/
def reqB : ClientGetConfigsRequest :=
  { client :=
      { state :=
          { rootVersion := 11
            targetsVersion := 12
            configStates := [{ id := "cfg1", version := 2, product := "debug" }]
            hasError := true
            error := "previous failure"
            backendClientState := [1, 2] }
        id := "client-b"
        products := ["debug"]
        isAgent := true
        isTracer := false
        clientAgent :=
          { name := "datadog-operator"
            version := "9.9.9"
            clusterName := ""
            clusterId := ""
            cwsWorkloads := [] } }
    cachedTargetFiles :=
      [{ path := "p1", length := 5,
         hashes := [{ algorithm := "sha256", hash := "abcd" }] }] }

/-- Witness for C3 at concrete values: the built request carries the
mapped config states and the message of the previous error. -/
theorem newUpdateRequest_mirrors_state_witness :
    reqB.client.state.configStates =
      stB.configs.map (fun f =>
        { id := f.id, version := f.version, product := f.product }) ∧
    reqB.client.state.error = GoError.message { message := "previous failure" } :=
  ⟨(newUpdateRequest_mirrors_state clientB stB reqB (by rfl)).2.2.1,
    (newUpdateRequest_mirrors_state clientB stB reqB (by rfl)).2.2.2.2.2.1
      { message := "previous failure" } rfl⟩

/-- C1: in a poll cycle whose request build and fetch succeed, update
notifies the debug listeners exactly when the applied update reports the
debug product among the changed products: a nil TargetFiles slice, an
empty changed-product list, or a changed-product list without the debug
product produce no notification, while a changed-product list containing
the debug product delivers the current DebugConfigs to every registered
listener. -/
theorem update_notifies_debug_iff_changed :
    ∀ (c : Client) (env : UpdateEnv) (req : ClientGetConfigsRequest)
      (resp : ClientGetConfigsResponse),
      Client.newUpdateRequest c env.currentState = Except.ok req →
      env.getConfigs req = Except.ok resp →
      ((resp.targetFiles = none → Client.update c env = (none, [])) ∧
       (∀ (files : List TargetFile) (changed : List String),
          resp.targetFiles = some files →
          Client.applyUpdate env resp = Except.ok changed →
          ((changed = [] → Client.update c env = (none, [])) ∧
           (containsProduct changed ProductDebug = false →
             Client.update c env = (none, [])) ∧
           (containsProduct changed ProductDebug = true →
             Client.update c env =
               (none, c.debugListeners.map (fun l => (l, env.debugConfigs))))))) := by
  intro c env req resp h1 h2
  constructor
  · intro htf
    simp [Client.update, h1, h2, htf]
  · intro files changed htf happ
    refine ⟨?_, ?_, ?_⟩
    · intro hempty
      subst hempty
      simp [Client.update, h1, h2, htf, happ]
    · intro hnodbg
      cases changed with
      | nil => simp [Client.update, h1, h2, htf, happ]
      | cons p rest =>
        simp [Client.update, h1, h2, htf, happ, hnodbg]
    · intro hdbg
      have hne : changed ≠ [] := by
        intro hc
        subst hc
        simp [containsProduct] at hdbg
      cases changed with
      | nil => exact absurd rfl hne
      | cons p rest =>
        simp [Client.update, h1, h2, htf, happ, hdbg]

/-- Concrete repository state for the C1 and C2 witnesses: empty, so the
built request is small. -/
def stC : RepositoryState :=
  { rootsVersion := 0
    targetsVersion := 0
    configs := []
    cachedFiles := []
    opaqueBackendState := [] }

/-- Concrete client with one registered debug listener for the C1
witness. -/
def clientC : Client :=
  { ID := "client-c"
    agentName := "datadog-operator"
    agentVersion := "1.2.3"
    products := ["debug"]
    clusterName := ""
    clusterID := ""
    cwsWorkloads := []
    pollInterval := 1000000000
    lastUpdateError := none
    debugListeners := [7] }

/-- Concrete request that newUpdateRequest builds from clientC and stC. -/
def reqC : ClientGetConfigsRequest :=
  { client :=
      { state :=
          { rootVersion := 0
            targetsVersion := 0
            configStates := []
            hasError := false
            error := ""
            backendClientState := [] }
        id := "client-c"
        products := ["debug"]
        isAgent := true
        isTracer := false
        clientAgent :=
          { name := "datadog-operator"
            version := "9.9.9"
            clusterName := ""
            clusterId := ""
            cwsWorkloads := [] } }
    cachedTargetFiles := [] }

/-- Concrete response with one target file for the C1 witness. -/
def respC : ClientGetConfigsResponse :=
  { roots := []
    targets := []
    targetFiles := some [{ path := "p", raw := [1] }]
    clientConfigs := ["p"] }

/-- Concrete environment for the C1 witness: the fetch returns respC and
the state repository reports the debug product as changed. -/
def envC : UpdateEnv :=
  { currentState := Except.ok stC
    getConfigs := fun _ => Except.ok respC
    stateUpdate := fun _ => Except.ok [ProductDebug]
    debugConfigs := ([("k", "v")] : List (String × String)) }

/-- Witness for C1 at concrete values: with the debug product among the
changed products, the single registered listener receives the current
DebugConfigs. -/
theorem update_notifies_debug_iff_changed_witness :
    Client.update clientC envC =
      (none, clientC.debugListeners.map (fun l => (l, envC.debugConfigs))) :=
  ((update_notifies_debug_iff_changed clientC envC reqC respC rfl rfl).2
    [{ path := "p", raw := [1] }] [ProductDebug] rfl rfl).2.2 rfl

/-- C2: every failing step of update returns its error unchanged and
produces no notification: a failing request build (the current-state read
failing), a failing ClientGetConfigs call, or a failing state-repository
update each make update return exactly that error with no listener
invoked. -/
theorem update_error_passthrough :
    ∀ (c : Client) (env : UpdateEnv) (e : GoError),
      (env.currentState = Except.error e →
        Client.update c env = (some e, [])) ∧
      (∀ req : ClientGetConfigsRequest,
        Client.newUpdateRequest c env.currentState = Except.ok req →
        env.getConfigs req = Except.error e →
        Client.update c env = (some e, [])) ∧
      (∀ (req : ClientGetConfigsRequest) (resp : ClientGetConfigsResponse),
        Client.newUpdateRequest c env.currentState = Except.ok req →
        env.getConfigs req = Except.ok resp →
        resp.targetFiles ≠ none →
        Client.applyUpdate env resp = Except.error e →
        Client.update c env = (some e, [])) := by
  intro c env e
  refine ⟨?_, ?_, ?_⟩
  · intro h
    simp [Client.update, Client.newUpdateRequest, h]
  · intro req h1 h2
    simp [Client.update, h1, h2]
  · intro req resp h1 h2 htf happ
    cases hcase : resp.targetFiles with
    | none => exact absurd hcase htf
    | some files =>
      simp [Client.update, h1, h2, hcase, happ]

/-- Witness for C2 at concrete values: a failing current-state read makes
update return that very error with no notification. -/
theorem update_error_passthrough_witness :
    Client.update clientA envBoom = (some { message := "boom" }, []) :=
  (update_error_passthrough clientA envBoom { message := "boom" }).1 rfl

/-- Helper: the comparison closure of sortProfiles decides the strict
lexicographic order on creation timestamp then name. -/
theorem profileLess_iff (p q : Profile) :
    profileLess p q = true ↔
      (p.creationTimestamp < q.creationTimestamp ∨
        (p.creationTimestamp = q.creationTimestamp ∧ p.name < q.name)) := by
  by_cases h : p.creationTimestamp = q.creationTimestamp <;>
    simp [profileLess, h]

/-- Helper: failing the comparison the other way round decides the
non-strict lexicographic order. -/
theorem profileLess_false_iff (p q : Profile) :
    profileLess q p = false ↔
      (p.creationTimestamp < q.creationTimestamp ∨
        (p.creationTimestamp = q.creationTimestamp ∧ p.name ≤ q.name)) := by
  rw [← Bool.not_eq_true, profileLess_iff]
  constructor
  · intro h
    push_neg at h
    obtain ⟨h1, h2⟩ := h
    rcases Nat.lt_trichotomy p.creationTimestamp q.creationTimestamp with
      hlt | heq | hgt
    · exact Or.inl hlt
    · exact Or.inr ⟨heq, h2 heq.symm⟩
    · omega
  · intro h
    push_neg
    refine ⟨?_, ?_⟩
    · rcases h with hlt | ⟨heq, _⟩ <;> omega
    · intro heq hn
      rcases h with hlt | ⟨heq2, hle⟩
      · omega
      · exact absurd hn (not_lt.mpr hle)

/-- Helper: the non-strict profile comparison is transitive. -/
theorem profileLe_trans :
    ∀ a b c : Profile, (!profileLess b a) = true → (!profileLess c b) = true →
      (!profileLess c a) = true := by
  intro a b c hab hbc
  rw [Bool.not_eq_true'] at hab hbc ⊢
  rw [profileLess_false_iff] at hab hbc ⊢
  rcases hab with h1 | ⟨e1, n1⟩ <;> rcases hbc with h2 | ⟨e2, n2⟩
  · exact Or.inl (lt_trans h1 h2)
  · left; omega
  · left; omega
  · exact Or.inr ⟨by omega, le_trans n1 n2⟩

/-- Helper: the non-strict profile comparison is total. -/
theorem profileLe_total :
    ∀ a b : Profile, ((!profileLess b a) || (!profileLess a b)) = true := by
  intro a b
  cases hab : profileLess b a
  · simp
  · cases hba : profileLess a b
    · simp
    · exfalso
      rw [profileLess_iff] at hab hba
      rcases hab with h1 | ⟨e1, n1⟩ <;> rcases hba with h2 | ⟨e2, n2⟩
      · omega
      · omega
      · omega
      · exact absurd (lt_trans n1 n2) (lt_irrefl _)

/-- Helper: when the node scan of a profile succeeds without conflict, it
collects the name of every node the profile matches, and none of those
names was already covered by an applied profile. -/
theorem scanNodes_sound (mf : Profile → Node → Except GoError Bool)
    (applied : List String) (p : Profile) :
    ∀ (nodes : List Node) (ms : List String),
      scanNodes mf applied p nodes = Except.ok (some ms) →
      ∀ node ∈ nodes, mf p node = Except.ok true →
        node.nodeName ∈ ms ∧ node.nodeName ∉ applied := by
  intro nodes
  induction nodes with
  | nil =>
    intro ms h node hmem
    simp at hmem
  | cons n rest ih =>
    intro ms h node hmem hmatch
    simp only [scanNodes] at h
    cases hm : mf p n with
    | error e =>
      rw [hm] at h
      simp at h
    | ok b =>
      cases b with
      | false =>
        rw [hm] at h
        simp only at h
        rcases List.mem_cons.mp hmem with heq | hmem'
        · subst heq
          rw [hm] at hmatch
          simp at hmatch
        · exact ih ms h node hmem' hmatch
      | true =>
        rw [hm] at h
        simp only at h
        by_cases happ : n.nodeName ∈ applied
        · rw [if_pos happ] at h
          simp at h
        · rw [if_neg happ] at h
          cases hrest : scanNodes mf applied p rest with
          | error e =>
            rw [hrest] at h
            simp at h
          | ok o =>
            cases o with
            | none =>
              rw [hrest] at h
              simp at h
            | some ms' =>
              rw [hrest] at h
              simp only at h
              have hms : n.nodeName :: ms' = ms :=
                Option.some.inj (Except.ok.inj h)
              rcases List.mem_cons.mp hmem with heq | hmem'
              · subst heq
                refine ⟨?_, happ⟩
                rw [← hms]
                exact List.mem_cons_self _ _
              · obtain ⟨h1, h2⟩ := ih ms' hrest node hmem' hmatch
                refine ⟨?_, h2⟩
                rw [← hms]
                exact List.mem_cons_of_mem _ h1

/-- Helper: every profile kept by the greedy loop matches only nodes whose
names were not yet covered when the loop started. -/
theorem profilesLoopGo_not_applied (mf : Profile → Node → Except GoError Bool)
    (nodes : List Node) :
    ∀ (ps : List Profile) (applied : List String) (res : List Profile),
      profilesLoopGo mf nodes applied ps = Except.ok res →
      ∀ q ∈ res, ∀ node ∈ nodes, mf q node = Except.ok true →
        node.nodeName ∉ applied := by
  intro ps
  induction ps with
  | nil =>
    intro applied res h q hq
    simp only [profilesLoopGo] at h
    have : ([] : List Profile) = res := Except.ok.inj h
    subst this
    simp at hq
  | cons p rest ih =>
    intro applied res h q hq node hnode hmatch
    simp only [profilesLoopGo] at h
    cases hscan : scanNodes mf applied p nodes with
    | error e =>
      rw [hscan] at h
      simp at h
    | ok o =>
      cases o with
      | none =>
        rw [hscan] at h
        simp only at h
        exact ih applied res h q hq node hnode hmatch
      | some ms =>
        rw [hscan] at h
        simp only at h
        cases hloop : profilesLoopGo mf nodes (applied ++ ms) rest with
        | error e =>
          rw [hloop] at h
          simp at h
        | ok res' =>
          rw [hloop] at h
          simp only at h
          have hres : p :: res' = res := Except.ok.inj h
          subst hres
          rcases List.mem_cons.mp hq with heq | hq'
          · subst heq
            exact (scanNodes_sound mf applied q nodes ms hscan node hnode
              hmatch).2
          · have hnotin := ih (applied ++ ms) res' hloop q hq' node hnode hmatch
            intro hcontra
            exact hnotin (List.mem_append.mpr (Or.inl hcontra))

/-- Helper: the profiles kept by the greedy loop are pairwise free of
node conflicts. -/
theorem profilesLoopGo_pairwise (mf : Profile → Node → Except GoError Bool)
    (nodes : List Node) :
    ∀ (ps : List Profile) (applied : List String) (res : List Profile),
      profilesLoopGo mf nodes applied ps = Except.ok res →
      List.Pairwise (fun p q => ∀ node ∈ nodes,
        ¬(mf p node = Except.ok true ∧ mf q node = Except.ok true)) res := by
  intro ps
  induction ps with
  | nil =>
    intro applied res h
    have : ([] : List Profile) = res := Except.ok.inj h
    subst this
    exact List.Pairwise.nil
  | cons p rest ih =>
    intro applied res h
    simp only [profilesLoopGo] at h
    cases hscan : scanNodes mf applied p nodes with
    | error e =>
      rw [hscan] at h
      simp at h
    | ok o =>
      cases o with
      | none =>
        rw [hscan] at h
        simp only at h
        exact ih applied res h
      | some ms =>
        rw [hscan] at h
        simp only at h
        cases hloop : profilesLoopGo mf nodes (applied ++ ms) rest with
        | error e =>
          rw [hloop] at h
          simp at h
        | ok res' =>
          rw [hloop] at h
          simp only at h
          have hres : p :: res' = res := Except.ok.inj h
          subst hres
          refine List.Pairwise.cons ?_ (ih (applied ++ ms) res' hloop)
          intro q hq node hnode hboth
          obtain ⟨hp, hqm⟩ := hboth
          have h1 := (scanNodes_sound mf applied p nodes ms hscan node hnode
            hp).1
          have h2 := profilesLoopGo_not_applied mf nodes rest (applied ++ ms)
            res' hloop q hq node hnode hqm
          exact h2 (List.mem_append.mpr (Or.inr h1))

/-- Helper: the profiles kept by the greedy loop form a sublist of the
scanned profile list, in particular they appear in scan order. -/
theorem profilesLoopGo_sublist (mf : Profile → Node → Except GoError Bool)
    (nodes : List Node) :
    ∀ (ps : List Profile) (applied : List String) (res : List Profile),
      profilesLoopGo mf nodes applied ps = Except.ok res →
      List.Sublist res ps := by
  intro ps
  induction ps with
  | nil =>
    intro applied res h
    have : ([] : List Profile) = res := Except.ok.inj h
    subst this
    exact List.nil_sublist _
  | cons p rest ih =>
    intro applied res h
    simp only [profilesLoopGo] at h
    cases hscan : scanNodes mf applied p nodes with
    | error e =>
      rw [hscan] at h
      simp at h
    | ok o =>
      cases o with
      | none =>
        rw [hscan] at h
        simp only at h
        exact List.Sublist.cons p (ih applied res h)
      | some ms =>
        rw [hscan] at h
        simp only at h
        cases hloop : profilesLoopGo mf nodes (applied ++ ms) rest with
        | error e =>
          rw [hloop] at h
          simp at h
        | ok res' =>
          rw [hloop] at h
          simp only at h
          have hres : p :: res' = res := Except.ok.inj h
          subst hres
          exact List.Sublist.cons₂ p (ih (applied ++ ms) res' hloop)

/-- Helper: when the node scan of a profile reports a conflict, the
profile matches some node whose name was already covered by an applied
profile. -/
theorem scanNodes_none_conflict (mf : Profile → Node → Except GoError Bool)
    (applied : List String) (p : Profile) :
    ∀ nodes : List Node,
      scanNodes mf applied p nodes = Except.ok none →
      ∃ node ∈ nodes, mf p node = Except.ok true ∧
        node.nodeName ∈ applied := by
  intro nodes
  induction nodes with
  | nil =>
    intro h
    simp [scanNodes] at h
  | cons n rest ih =>
    intro h
    simp only [scanNodes] at h
    cases hm : mf p n with
    | error e =>
      rw [hm] at h
      simp at h
    | ok b =>
      cases b with
      | false =>
        rw [hm] at h
        simp only at h
        obtain ⟨node, hn, hmatch, happ⟩ := ih h
        exact ⟨node, List.mem_cons_of_mem _ hn, hmatch, happ⟩
      | true =>
        rw [hm] at h
        simp only at h
        by_cases happ : n.nodeName ∈ applied
        · exact ⟨n, List.mem_cons_self _ _, hm, happ⟩
        · rw [if_neg happ] at h
          cases hrest : scanNodes mf applied p rest with
          | error e =>
            rw [hrest] at h
            simp at h
          | ok o =>
            cases o with
            | none =>
              obtain ⟨node, hn, hmatch, happ2⟩ := ih hrest
              exact ⟨node, List.mem_cons_of_mem _ hn, hmatch, happ2⟩
            | some ms' =>
              rw [hrest] at h
              simp at h

/-- Helper: every name collected by a successful conflict-free node scan
is the name of a scanned node that the profile matches. -/
theorem scanNodes_matched_names (mf : Profile → Node → Except GoError Bool)
    (applied : List String) (p : Profile) :
    ∀ (nodes : List Node) (ms : List String),
      scanNodes mf applied p nodes = Except.ok (some ms) →
      ∀ name ∈ ms, ∃ node ∈ nodes, node.nodeName = name ∧
        mf p node = Except.ok true := by
  intro nodes
  induction nodes with
  | nil =>
    intro ms h name hname
    have hms : ([] : List String) = ms := Option.some.inj (Except.ok.inj h)
    subst hms
    simp at hname
  | cons n rest ih =>
    intro ms h name hname
    simp only [scanNodes] at h
    cases hm : mf p n with
    | error e =>
      rw [hm] at h
      simp at h
    | ok b =>
      cases b with
      | false =>
        rw [hm] at h
        simp only at h
        obtain ⟨node, hn, hn2, hmatch⟩ := ih ms h name hname
        exact ⟨node, List.mem_cons_of_mem _ hn, hn2, hmatch⟩
      | true =>
        rw [hm] at h
        simp only at h
        by_cases happ : n.nodeName ∈ applied
        · rw [if_pos happ] at h
          simp at h
        · rw [if_neg happ] at h
          cases hrest : scanNodes mf applied p rest with
          | error e =>
            rw [hrest] at h
            simp at h
          | ok o =>
            cases o with
            | none =>
              rw [hrest] at h
              simp at h
            | some ms' =>
              rw [hrest] at h
              simp only at h
              have hms : n.nodeName :: ms' = ms :=
                Option.some.inj (Except.ok.inj h)
              subst hms
              rcases List.mem_cons.mp hname with heq | hname'
              · exact ⟨n, List.mem_cons_self _ _, heq.symm, hm⟩
              · obtain ⟨node, hn, hn2, hmatch⟩ := ih ms' hrest name hname'
                exact ⟨node, List.mem_cons_of_mem _ hn, hn2, hmatch⟩

/-- Helper: every candidate the greedy loop drops loses a conflict to a
kept profile that comes no later in the scanned order: the dropped profile
matches a node whose name was covered either before the loop started or by
a kept profile preceding it in the list, hence one that profileLess does
not place after it. -/
theorem profilesLoopGo_earliest_wins (mf : Profile → Node → Except GoError Bool)
    (nodes : List Node) :
    ∀ (ps : List Profile) (applied : List String) (res : List Profile),
      List.Pairwise (fun a b => profileLess b a = false) ps →
      profilesLoopGo mf nodes applied ps = Except.ok res →
      ∀ q ∈ ps, q ∉ res →
        ∃ name,
          (name ∈ applied ∨
            ∃ p ∈ res, profileLess q p = false ∧
              ∃ node ∈ nodes, node.nodeName = name ∧
                mf p node = Except.ok true) ∧
          ∃ node ∈ nodes, node.nodeName = name ∧
            mf q node = Except.ok true := by
  intro ps
  induction ps with
  | nil =>
    intro applied res hsort h q hq
    simp at hq
  | cons phead rest ih =>
    intro applied res hsort h q hq hqnot
    obtain ⟨hhead, htail⟩ := List.pairwise_cons.mp hsort
    simp only [profilesLoopGo] at h
    cases hscan : scanNodes mf applied phead nodes with
    | error e =>
      rw [hscan] at h
      simp at h
    | ok o =>
      cases o with
      | none =>
        rw [hscan] at h
        simp only at h
        rcases List.mem_cons.mp hq with heq | hq'
        · subst heq
          obtain ⟨node, hn, hmatch, happ⟩ :=
            scanNodes_none_conflict mf applied q nodes hscan
          exact ⟨node.nodeName, Or.inl happ, node, hn, rfl, hmatch⟩
        · exact ih applied res htail h q hq' hqnot
      | some ms =>
        rw [hscan] at h
        simp only at h
        cases hloop : profilesLoopGo mf nodes (applied ++ ms) rest with
        | error e =>
          rw [hloop] at h
          simp at h
        | ok res' =>
          rw [hloop] at h
          simp only at h
          have hres : phead :: res' = res := Except.ok.inj h
          subst hres
          rcases List.mem_cons.mp hq with heq | hq'
          · subst heq
            exact absurd (List.mem_cons_self _ _) hqnot
          · have hqnot' : q ∉ res' := fun hc =>
              hqnot (List.mem_cons_of_mem _ hc)
            obtain ⟨name, hdisj, hqm⟩ :=
              ih (applied ++ ms) res' htail hloop q hq' hqnot'
            rcases hdisj with hin | ⟨p, hp, hrel, node2, hn2, hn2name, hpm⟩
            · rcases List.mem_append.mp hin with hinApplied | hinMs
              · exact ⟨name, Or.inl hinApplied, hqm⟩
              · obtain ⟨node2, hn2, hn2name, hpm⟩ :=
                  scanNodes_matched_names mf applied phead nodes ms hscan
                    name hinMs
                exact ⟨name, Or.inr ⟨phead, List.mem_cons_self _ _,
                  hhead q hq', node2, hn2, hn2name, hpm⟩, hqm⟩
            · exact ⟨name, Or.inr ⟨p, List.mem_cons_of_mem _ hp, hrel,
                node2, hn2, hn2name, hpm⟩, hqm⟩

/-- C9: when ProfilesToApply succeeds its output is non-empty and ends in
the default profile built from the kept profiles; the sorted candidate
list is ordered by earliest creation timestamp with alphabetical
tie-break; the kept profiles are a sublist of it; no node is matched by
two kept profiles; and conflicts are resolved in favor of the earlier
profile: every sorted candidate that is dropped matches a node (by name,
and literally the same node when node names are distinct) that is also
matched by a kept profile whose creation timestamp and name make
profileLess place it no later than the dropped one. -/
theorem profilesToApply_default_and_conflict_free :
    ∀ (mf : Profile → Node → Except GoError Bool)
      (profiles : List Profile) (nodes : List Node) (out : List Profile),
      ProfilesToApply mf profiles nodes = Except.ok out →
      out ≠ [] ∧
      List.Pairwise (fun p q => profileLess q p = false)
        (sortProfiles profiles) ∧
      ∃ res, out = res ++ [defaultProfile res] ∧
        List.Sublist res (sortProfiles profiles) ∧
        List.Pairwise (fun p q => ∀ node ∈ nodes,
          ¬(mf p node = Except.ok true ∧ mf q node = Except.ok true)) res ∧
        (∀ q ∈ sortProfiles profiles, q ∉ res →
          ∃ p ∈ res, profileLess q p = false ∧
            ∃ node ∈ nodes, ∃ node2 ∈ nodes,
              node2.nodeName = node.nodeName ∧
              mf p node2 = Except.ok true ∧ mf q node = Except.ok true) ∧
        ((nodes.map Node.nodeName).Nodup →
          ∀ q ∈ sortProfiles profiles, q ∉ res →
            ∃ p ∈ res, profileLess q p = false ∧
              ∃ node ∈ nodes, mf p node = Except.ok true ∧
                mf q node = Except.ok true) := by
  intro mf profiles nodes out h
  simp only [ProfilesToApply] at h
  cases hloop : profilesLoopGo mf nodes [] (sortProfiles profiles) with
  | error e =>
    rw [hloop] at h
    simp at h
  | ok res =>
    rw [hloop] at h
    simp only at h
    have hout : res ++ [defaultProfile res] = out := Except.ok.inj h
    subst hout
    have hsorted : List.Pairwise (fun p q => profileLess q p = false)
        (sortProfiles profiles) := by
      have hs := List.sorted_mergeSort profileLe_trans profileLe_total profiles
      have hs' : List.Pairwise (fun p q => (!profileLess q p) = true)
          (sortProfiles profiles) := hs
      exact hs'.imp (fun hx => by rwa [Bool.not_eq_true'] at hx)
    refine ⟨by simp, hsorted, res, rfl, ?_, ?_, ?_, ?_⟩
    · exact profilesLoopGo_sublist mf nodes (sortProfiles profiles) [] res hloop
    · exact profilesLoopGo_pairwise mf nodes (sortProfiles profiles) [] res
        hloop
    · intro q hq hqnot
      obtain ⟨name, hdisj, node, hn, hname, hqm⟩ :=
        profilesLoopGo_earliest_wins mf nodes (sortProfiles profiles) [] res
          hsorted hloop q hq hqnot
      rcases hdisj with hin | ⟨p, hp, hrel, node2, hn2, hname2, hpm⟩
      · simp at hin
      · exact ⟨p, hp, hrel, node, hn, node2, hn2, hname2.trans hname.symm,
          hpm, hqm⟩
    · intro hnodup q hq hqnot
      obtain ⟨name, hdisj, node, hn, hname, hqm⟩ :=
        profilesLoopGo_earliest_wins mf nodes (sortProfiles profiles) [] res
          hsorted hloop q hq hqnot
      rcases hdisj with hin | ⟨p, hp, hrel, node2, hn2, hname2, hpm⟩
      · simp at hin
      · have hnode : node2 = node :=
          List.inj_on_of_nodup_map hnodup hn2 hn (hname2.trans hname.symm)
        exact ⟨p, hp, hrel, node, hn, hnode ▸ hpm, hqm⟩

/-- Concrete match function for the C9 witness: every profile matches
every node. -/
def mfW : Profile → Node → Except GoError Bool := fun _ _ => Except.ok true

/-- Witness for C9 on the empty profile and node lists: the output is the
default profile alone, and the theorem instantiates cleanly. -/
theorem profilesToApply_default_and_conflict_free_witness :
    ([defaultProfile []] : List Profile) ≠ [] ∧
    List.Pairwise (fun p q => profileLess q p = false) (sortProfiles []) ∧
    ∃ res, ([defaultProfile []] : List Profile) = res ++ [defaultProfile res] ∧
      List.Sublist res (sortProfiles []) ∧
      List.Pairwise (fun p q => ∀ node ∈ ([] : List Node),
        ¬(mfW p node = Except.ok true ∧ mfW q node = Except.ok true)) res ∧
      (∀ q ∈ sortProfiles [], q ∉ res →
        ∃ p ∈ res, profileLess q p = false ∧
          ∃ node ∈ ([] : List Node), ∃ node2 ∈ ([] : List Node),
            node2.nodeName = node.nodeName ∧
            mfW p node2 = Except.ok true ∧ mfW q node = Except.ok true) ∧
      ((([] : List Node).map Node.nodeName).Nodup →
        ∀ q ∈ sortProfiles [], q ∉ res →
          ∃ p ∈ res, profileLess q p = false ∧
            ∃ node ∈ ([] : List Node), mfW p node = Except.ok true ∧
              mfW q node = Except.ok true) :=
  profilesToApply_default_and_conflict_free mfW [] [] [defaultProfile []] (by
    simp only [ProfilesToApply, sortProfiles, List.mergeSort_nil,
      profilesLoopGo, List.nil_append])
